import Mathlib

/-
Verification of the batch-normalization layer in src/batch_norm.py
(class BatchNormalizedLayer).

Modelling choices:
* numpy float arrays are idealized as lists of real numbers; a
  (batch, D) array is a `List (List ℝ)` of rows.  numpy carries the
  column count in the array's shape, so reductions along axis 0 take the
  column count `D` as an explicit argument here.
* `np.sqrt` is `Real.sqrt`.
* the layer's `self.cache`, a Python list that is `[]` on a fresh layer
  and `[std, diff, uhat]` after a forward pass, is an `Option Cache`.
* Python runtime errors raised on an empty cache are made explicit in an
  error type `PyError`.
-/

noncomputable section

namespace BatchNorm

/-- Sum down the rows (numpy `sum`/reduction with `axis=0`).  The column
count `D` comes from the array shape, so an empty stack of rows still
yields `D` zeros, as in numpy. -/
def colSum (D : ℕ) (m : List (List ℝ)) : List ℝ :=
  m.foldr (fun r acc => List.zipWith (· + ·) r acc) (List.replicate D 0)

/-- Per-feature mean across the batch: `mu = np.mean(inputs, axis=0)`. -/
def mean (D : ℕ) (m : List (List ℝ)) : List ℝ :=
  (colSum D m).map (fun s => s / (m.length : ℝ))

/-- Per-feature variance across the batch:
`sigma2 = np.var(inputs, axis=0)`, the mean of squared deviations. -/
def var (D : ℕ) (m : List (List ℝ)) : List ℝ :=
  (colSum D (m.map (fun r => List.zipWith (fun a b => (a - b) ^ 2) r (mean D m)))).map
    (fun s => s / (m.length : ℝ))

/-- The numerical-stability constant `1e-8` added to the variance in fprop. -/
def eps : ℝ := 1e-8

/-- Line `std = np.sqrt(sigma2 + 1e-8)` of fprop. -/
def std (D : ℕ) (m : List (List ℝ)) : List ℝ :=
  (var D m).map (fun s => Real.sqrt (s + eps))

/-- Line `diff = inputs - mu` of fprop (mean broadcast across the batch). -/
def diff (D : ℕ) (m : List (List ℝ)) : List (List ℝ) :=
  m.map (fun r => List.zipWith (· - ·) r (mean D m))

/-- Line `uhat = np.divide((inputs-mu), np.sqrt(std))` of fprop.  Note
that the source divides by the square root of `std`, i.e. by
`(sigma2 + 1e-8) ^ (1/4)`. -/
def uhat (D : ℕ) (m : List (List ℝ)) : List (List ℝ) :=
  (diff D m).map (fun r => List.zipWith (· / ·) r ((std D m).map Real.sqrt))

/-- Modelled from the spec: the documented contract for the normalized
activation, `uhat = diff / std` (zero mean, unit variance per feature).
This definition follows the spec's words and exists only to be compared
with `uhat`, which is translated from the source. -/
def uhatSpec (D : ℕ) (m : List (List ℝ)) : List (List ℝ) :=
  (diff D m).map (fun r => List.zipWith (· / ·) r (std D m))

/-- Cache triple stored by fprop: `self.cache = [std, diff, uhat]`. -/
structure Cache where
  stdv : List ℝ
  diffm : List (List ℝ)
  uhatm : List (List ℝ)

/-- State of a `BatchNormalizedLayer` instance: dimensions, the learned
parameter vectors `gamma` and `beta`, and the single-slot cache
(`none` models the fresh layer's empty Python list `self.cache = []`). -/
structure Layer where
  input_dim : ℕ
  output_dim : ℕ
  gamma : List ℝ
  beta : List ℝ
  cache : Option Cache

/-- Runtime failures of the source on an empty cache, and the explicit
configuration error the spec asks for.  `valueErr` is the Python
ValueError raised by unpacking `[std,diff,uhat] = []`; `indexErr` is the
IndexError raised by `self.cache[2]` on `[]`; `notInitErr` stands for an
explicit "not initialized" error, which the source never raises. -/
inductive PyError where
  | valueErr
  | indexErr
  | notInitErr
deriving DecidableEq

/-- Constructor `BatchNormalizedLayer(input_dim, output_dim)`.  From the
source: `self.input_dim = input_dim`, `self.output_dim = self.input_dim`
(the `output_dim` argument is ignored), `self.cache = []`, and no
validation of any kind.  Modelled from the spec: the source elides the
gamma/beta initialization behind the placeholder comment
`#<Initialization routine for gamma and beta>`; the spec requires
per-feature vectors of length `input_dim` and suggests gamma=1, beta=0,
so we initialize `gamma` to ones and `beta` to zeros of that length. -/
def initLayer (input_dim output_dim : ℕ) : Layer :=
  { input_dim := input_dim
    output_dim := input_dim
    gamma := List.replicate input_dim 1
    beta := List.replicate input_dim 0
    cache := none }

/-- Line `y = self.gamma * uhat + self.beta` of fprop: elementwise scale
and shift, `gamma` and `beta` broadcast over the batch. -/
def affine (gamma beta : List ℝ) (u : List (List ℝ)) : List (List ℝ) :=
  u.map (fun r => List.zipWith (· + ·) (List.zipWith (· * ·) gamma r) beta)

/-- fprop: forward pass.  Returns the output `y = gamma * uhat + beta`
and the layer with its cache overwritten by `[std, diff, uhat]`. -/
def fprop (l : Layer) (D : ℕ) (inputs : List (List ℝ)) :
    List (List ℝ) × Layer :=
  (affine l.gamma l.beta (uhat D inputs),
   { l with cache := some ⟨std D inputs, diff D inputs, uhat D inputs⟩ })

/-- Elementwise product of two same-shaped arrays (numpy `*` on two
matrices). -/
def rowMul (a b : List (List ℝ)) : List (List ℝ) :=
  List.zipWith (fun r1 r2 => List.zipWith (· * ·) r1 r2) a b

/-- Line `duhat = grads_wrt_outputs * self.gamma` of bprop (gamma
broadcast across the batch). -/
def duhatM (gamma : List ℝ) (gwo : List (List ℝ)) : List (List ℝ) :=
  gwo.map (fun r => List.zipWith (· * ·) r gamma)

/-- Line `dvar = -0.5 * np.divide(np.sum(duhat * uhat, axis=0),
np.square(std))` of bprop. -/
def dvarV (D : ℕ) (duhat uhatm : List (List ℝ)) (stdv : List ℝ) : List ℝ :=
  List.zipWith (fun s q => -0.5 * (s / q ^ 2)) (colSum D (rowMul duhat uhatm)) stdv

/-- Line `dmu = -1 * np.divide(np.sum(duhat, axis=0), std)` of bprop. -/
def dmuV (D : ℕ) (duhat : List (List ℝ)) (stdv : List ℝ) : List ℝ :=
  List.zipWith (fun s q => -1 * (s / q)) (colSum D duhat) stdv

/-- Body of bprop after the cache has been unpacked, line by line from
the source: `duhat = grads_wrt_outputs * gamma`, then `dvar` and `dmu`
as above, and finally
`grads_wrt_inputs = duhat/std + 2*dvar*diff*(1/N) + dmu*(1/N)`
with `N` the number of rows of `inputs`. -/
def bpropCore (gamma : List ℝ) (c : Cache) (inputs gwo : List (List ℝ))
    (D : ℕ) : List (List ℝ) :=
  let N : ℝ := (inputs.length : ℝ)
  let duhat := duhatM gamma gwo
  let dvar := dvarV D duhat c.uhatm c.stdv
  let dmu := dmuV D duhat c.stdv
  let term1 := duhat.map (fun r => List.zipWith (· / ·) r c.stdv)
  let term2 := c.diffm.map (fun r => List.zipWith (fun dv d => 2 * dv * d * (1 / N)) dvar r)
  let term3 := dmu.map (fun x => x * (1 / N))
  (List.zipWith (fun r1 r2 => List.zipWith (· + ·) r1 r2) term1 term2).map
    (fun r => List.zipWith (· + ·) r term3)

/-- bprop: unpacks `[std,diff,uhat] = self.cache`, which on a fresh
layer's empty cache raises a Python ValueError, then computes the
gradients with respect to the inputs.  The `outputs` argument is unused
by the source. -/
def Layer.bprop (l : Layer) (D : ℕ)
    (inputs _outputs gwo : List (List ℝ)) : Except PyError (List (List ℝ)) :=
  match l.cache with
  | none => .error .valueErr
  | some c => .ok (bpropCore l.gamma c inputs gwo D)

/-- grads_wrt_params: returns `[grads_wrt_gamma, grads_wrt_beta]` where
`grads_wrt_beta = np.sum(grads_wrt_outputs, axis=0)` and
`grads_wrt_gamma = np.sum(grads_wrt_outputs * self.cache[2], axis=0)`
(`self.cache[2]` is the cached uhat; indexing the fresh layer's empty
cache raises a Python IndexError).  The `inputs` argument is unused by
the source. -/
def Layer.grads_wrt_params (l : Layer) (D : ℕ)
    (_inputs gwo : List (List ℝ)) : Except PyError (List (List ℝ)) :=
  match l.cache with
  | none => .error .indexErr
  | some c =>
    .ok [colSum D (List.zipWith (fun r1 r2 => List.zipWith (· * ·) r1 r2) gwo c.uhatm),
         colSum D gwo]

/-- params_penalty: always 0. -/
def params_penalty (_l : Layer) : ℝ := 0

/-- First of the two same-named `params` methods in the source: the
accessor returning `[gamma, beta]`.  (Python resolves the name to the
later definition, the setter.) -/
def params_get (l : Layer) : List (List ℝ) :=
  [l.gamma, l.beta]

/-- Second of the two same-named `params` methods in the source (the one
Python keeps): the setter `self.gamma = values[0]; self.beta = values[1]`.
Indexing fails (`none`) when `values` has fewer than two entries; no
length validation is performed on the vectors themselves. -/
def params_set (l : Layer) (values : List (List ℝ)) : Option Layer :=
  match values with
  | g :: b :: _ => some { l with gamma := g, beta := b }
  | _ => none

/-- The structural invariants claimed for a layer: `output_dim` equals
`input_dim` and both parameter vectors have length `input_dim`. -/
def Invariant (l : Layer) : Prop :=
  l.output_dim = l.input_dim ∧ l.gamma.length = l.input_dim ∧
    l.beta.length = l.input_dim

/-- Entry of a matrix at row `i`, column `j` (0 outside the matrix). -/
def entry (m : List (List ℝ)) (i j : ℕ) : ℝ :=
  (m.getD i []).getD j 0

/-- In-range `getD` of a `zipWith` acts entrywise. -/
lemma getD_zipWith {α β γ : Type} (f : α → β → γ) (a : List α) (b : List β)
    (j : ℕ) (da : α) (db : β) (dc : γ) (ha : j < a.length) (hb : j < b.length) :
    (List.zipWith f a b).getD j dc = f (a.getD j da) (b.getD j db) := by
  have hj : j < (List.zipWith f a b).length := by
    simpa [List.length_zipWith] using And.intro ha hb
  rw [List.getD_eq_getElem _ _ hj, List.getD_eq_getElem _ _ ha,
    List.getD_eq_getElem _ _ hb, List.getElem_zipWith]

/-- In-range `getD` of a `map` acts entrywise, with arbitrary defaults. -/
lemma getD_map' {α β : Type} (f : α → β) (l : List α) (i : ℕ) (da : α)
    (db : β) (h : i < l.length) : (l.map f).getD i db = f (l.getD i da) := by
  have hi : i < (l.map f).length := by simpa using h
  rw [List.getD_eq_getElem _ _ hi, List.getD_eq_getElem _ _ h, List.getElem_map]

/-- Any `getD` with default 0 of a list of zeros is 0. -/
lemma getD_replicate_zero (n j : ℕ) : (List.replicate n (0 : ℝ)).getD j 0 = 0 := by
  rcases Nat.lt_or_ge j n with h | h
  · rw [List.getD_eq_getElem _ _ (by simpa using h)]
    exact List.getElem_replicate ..
  · exact List.getD_eq_default _ _ (by simpa using h)

/-- Every element of a `zipWith` comes from elements of the two lists. -/
lemma mem_zipWith {α β γ : Type} {f : α → β → γ} {a : List α} {b : List β}
    {x : γ} (h : x ∈ List.zipWith f a b) : ∃ u ∈ a, ∃ v ∈ b, x = f u v := by
  induction a generalizing b with
  | nil => simp at h
  | cons u a ih =>
    cases b with
    | nil => simp at h
    | cons v b =>
      rcases (List.mem_cons).1 h with h0 | h0
      · exact ⟨u, List.mem_cons_self .., v, List.mem_cons_self .., h0⟩
      · rcases ih h0 with ⟨u', hu, v', hv, hx⟩
        exact ⟨u', List.mem_cons_of_mem _ hu, v', List.mem_cons_of_mem _ hv, hx⟩

/-- On a matrix whose rows all have length `D`, `colSum D` has length `D`. -/
lemma length_colSum {D : ℕ} {m : List (List ℝ)}
    (h : ∀ r ∈ m, r.length = D) : (colSum D m).length = D := by
  induction m with
  | nil => simp [colSum]
  | cons r rs ih =>
    have hr : r.length = D := h r (List.mem_cons_self ..)
    have hrs : (colSum D rs).length = D :=
      ih fun r hr => h r (List.mem_cons_of_mem _ hr)
    simp [colSum, List.foldr_cons, List.length_zipWith]
    simp [colSum] at hrs
    omega

/-- Entrywise value of `colSum`: the sum of the column down the rows. -/
lemma getD_colSum {D : ℕ} {m : List (List ℝ)} {j : ℕ}
    (h : ∀ r ∈ m, r.length = D) (hj : j < D) :
    (colSum D m).getD j 0 = ∑ i ∈ Finset.range m.length, entry m i j := by
  induction m with
  | nil => simp [colSum, getD_replicate_zero]
  | cons r rs ih =>
    have hr : r.length = D := h r (List.mem_cons_self ..)
    have hrs : ∀ r ∈ rs, r.length = D := fun r hr => h r (List.mem_cons_of_mem _ hr)
    have hlen : (colSum D rs).length = D := length_colSum hrs
    have hstep : colSum D (r :: rs) = List.zipWith (· + ·) r (colSum D rs) := rfl
    rw [hstep, getD_zipWith _ _ _ _ 0 0 0 (by omega) (by omega), ih hrs]
    rw [List.length_cons, Finset.sum_range_succ']
    simp [entry, List.getD_cons_succ, List.getD_cons_zero]
    ring

/-- If every matrix entry is nonnegative, so is every entry of `colSum`. -/
lemma colSum_nonneg {D : ℕ} {m : List (List ℝ)}
    (h : ∀ r ∈ m, ∀ a ∈ r, 0 ≤ a) : ∀ x ∈ colSum D m, 0 ≤ x := by
  induction m with
  | nil =>
    intro x hx
    simp [colSum] at hx
    rcases hx with ⟨-, h0⟩
    simp [h0]
  | cons r rs ih =>
    intro x hx
    have hstep : colSum D (r :: rs) = List.zipWith (· + ·) r (colSum D rs) := rfl
    rw [hstep] at hx
    rcases mem_zipWith hx with ⟨u, hu, v, hv, hx⟩
    have h1 : 0 ≤ u := h r (List.mem_cons_self ..) u hu
    have h2 : 0 ≤ v := ih (fun r hr => h r (List.mem_cons_of_mem _ hr)) v hv
    simpa [hx] using add_nonneg h1 h2

/-- Shape of the per-feature mean. -/
lemma length_mean {D : ℕ} {m : List (List ℝ)}
    (h : ∀ r ∈ m, r.length = D) : (mean D m).length = D := by
  simpa [mean] using length_colSum h

/-- Rows of the squared-deviation matrix used by `var` have length `D`. -/
lemma sq_dev_row_length {D : ℕ} {m : List (List ℝ)}
    (h : ∀ r ∈ m, r.length = D) :
    ∀ r ∈ m.map (fun r => List.zipWith (fun a b => (a - b) ^ 2) r (mean D m)),
      r.length = D := by
  intro r hr
  rcases List.mem_map.1 hr with ⟨r0, hr0, rfl⟩
  simp [List.length_zipWith, h r0 hr0, length_mean h]

/-- Shape of the per-feature variance. -/
lemma length_var {D : ℕ} {m : List (List ℝ)}
    (h : ∀ r ∈ m, r.length = D) : (var D m).length = D := by
  simpa [var] using length_colSum (sq_dev_row_length h)

/-- Shape of the per-feature standard deviation. -/
lemma length_std {D : ℕ} {m : List (List ℝ)}
    (h : ∀ r ∈ m, r.length = D) : (std D m).length = D := by
  simpa [std] using length_var h

/-- The centered matrix has one row per input row. -/
lemma length_diff (D : ℕ) (m : List (List ℝ)) : (diff D m).length = m.length := by
  simp [diff]

/-- Rows of the centered matrix have length `D`. -/
lemma diff_row_length {D : ℕ} {m : List (List ℝ)}
    (h : ∀ r ∈ m, r.length = D) : ∀ r ∈ diff D m, r.length = D := by
  intro r hr
  rcases List.mem_map.1 hr with ⟨r0, hr0, rfl⟩
  simp [List.length_zipWith, h r0 hr0, length_mean h]

/-- The normalized matrix has one row per input row. -/
lemma length_uhat (D : ℕ) (m : List (List ℝ)) : (uhat D m).length = m.length := by
  simp [uhat, length_diff]

/-- Rows of the normalized matrix have length `D`. -/
lemma uhat_row_length {D : ℕ} {m : List (List ℝ)}
    (h : ∀ r ∈ m, r.length = D) : ∀ r ∈ uhat D m, r.length = D := by
  intro r hr
  rcases List.mem_map.1 hr with ⟨r0, hr0, rfl⟩
  simp [List.length_zipWith, diff_row_length h r0 hr0, length_std h]

/-- Every per-feature variance is nonnegative: it is a mean of squares. -/
lemma var_nonneg (D : ℕ) (m : List (List ℝ)) : ∀ v ∈ var D m, 0 ≤ v := by
  intro v hv
  rcases List.mem_map.1 hv with ⟨c, hc, rfl⟩
  have hcn : 0 ≤ c := by
    refine colSum_nonneg ?_ c hc
    intro r hr a ha
    rcases List.mem_map.1 hr with ⟨r0, -, rfl⟩
    rcases mem_zipWith ha with ⟨u, -, w, -, rfl⟩
    positivity
  exact div_nonneg hcn (Nat.cast_nonneg _)

/-- The stability constant is positive. -/
lemma eps_pos : 0 < eps := by norm_num [eps]

/-- Concrete 4-row, 1-feature batch used to evaluate fprop: chosen so
that `sigma2 + 1e-8 = (9e-4)^2` is an exact square with an exact square
root, making every quantity of the forward pass rational. -/
def exInput : List (List ℝ) := [[12e-4], [-12e-4], [4e-4], [-4e-4]]

/-- Per-feature mean of the example batch. -/
lemma mean_exInput : mean 1 exInput = [0] := by
  norm_num [mean, colSum, exInput]

/-- Per-feature variance of the example batch. -/
lemma var_exInput : var 1 exInput = [8e-7] := by
  rw [var, mean_exInput]
  norm_num [colSum, exInput]

/-- Per-feature standard deviation of the example batch:
`sqrt (8e-7 + 1e-8) = 9e-4` exactly. -/
lemma std_exInput : std 1 exInput = [9e-4] := by
  rw [std, var_exInput]
  simp only [List.map_cons, List.map_nil]
  rw [show (8e-7 : ℝ) + eps = (9e-4 : ℝ) ^ 2 by norm_num [eps]]
  rw [Real.sqrt_sq (by norm_num)]

/-- Centered example batch (its mean is zero, so it equals the batch). -/
lemma diff_exInput : diff 1 exInput = [[12e-4], [-12e-4], [4e-4], [-4e-4]] := by
  rw [diff, mean_exInput]
  norm_num [exInput]

/-- What the source's fprop actually stores as uhat on the example
batch: it divides by `sqrt (std) = sqrt (9e-4) = 3e-2`. -/
lemma uhat_exInput : uhat 1 exInput = [[1/25], [-(1/25)], [1/75], [-(1/75)]] := by
  rw [uhat, diff_exInput, std_exInput]
  simp only [List.map_cons, List.map_nil]
  rw [show Real.sqrt (9e-4) = (3e-2 : ℝ) by
    rw [show (9e-4 : ℝ) = (3e-2 : ℝ) ^ 2 by norm_num, Real.sqrt_sq (by norm_num)]]
  norm_num

/-- What the documented contract `diff / std` yields on the example
batch. -/
lemma uhatSpec_exInput : uhatSpec 1 exInput = [[4/3], [-(4/3)], [4/9], [-(4/9)]] := by
  rw [uhatSpec, diff_exInput, std_exInput]
  norm_num

/-- C1: the contract says the normalized activation equals
`diff / std`, but the source computes
`uhat = np.divide(inputs - mu, np.sqrt(std))`, dividing by the square
root of the standard deviation.  On the batch `exInput` (variance
`8e-7`, `std = 9e-4`) the source stores `[[1/25], [-(1/25)], [1/75],
[-(1/75)]]` while the contract demands `[[4/3], [-(4/3)], [4/9],
[-(4/9)]]`; the two disagree, confirming the forward pass does not
satisfy `uhat = diff / std`. -/
theorem C1_uhat_divides_by_sqrt_of_std :
    uhat 1 exInput = [[1/25], [-(1/25)], [1/75], [-(1/75)]] ∧
    uhatSpec 1 exInput = [[4/3], [-(4/3)], [4/9], [-(4/9)]] ∧
    uhat 1 exInput ≠ uhatSpec 1 exInput := by
  refine ⟨uhat_exInput, uhatSpec_exInput, ?_⟩
  rw [uhat_exInput, uhatSpec_exInput]
  intro h
  simp only [List.cons.injEq] at h
  norm_num at h

/-- C2: fprop computes `std = sqrt(sigma2 + 1e-8)` with epsilon = 1e-8,
and for every input batch (any shape, including zero-variance features)
every component of `std` — and hence every denominator
`sqrt(std)` actually used in the source's normalization — is strictly
positive, so the forward pass involves no division by zero. -/
theorem C2_std_positive (D : ℕ) (m : List (List ℝ)) :
    std D m = (var D m).map (fun s => Real.sqrt (s + 1e-8)) ∧
    (∀ s ∈ std D m, 0 < s) ∧
    (∀ t ∈ (std D m).map Real.sqrt, 0 < t) := by
  have hpos : ∀ s ∈ std D m, 0 < s := by
    intro s hs
    rcases List.mem_map.1 hs with ⟨v, hv, rfl⟩
    have hv0 : 0 ≤ v := var_nonneg D m v hv
    have he := eps_pos
    exact Real.sqrt_pos.2 (by linarith)
  refine ⟨rfl, hpos, ?_⟩
  intro t ht
  rcases List.mem_map.1 ht with ⟨s, hs, rfl⟩
  exact Real.sqrt_pos.2 (hpos s hs)

/-- Witness for C2 at the concrete batch `exInput`: its standard
deviation `9e-4` is a member of `std 1 exInput` and is positive. -/
theorem C2_std_positive_witness :
    (9e-4 : ℝ) ∈ std 1 exInput ∧ 0 < (9e-4 : ℝ) :=
  ⟨by rw [std_exInput]; exact List.mem_singleton.2 rfl,
   (C2_std_positive 1 exInput).2.1 _ (by rw [std_exInput]; exact List.mem_singleton.2 rfl)⟩

/-- C6 counterexample: constructing with `input_dim = 3`,
`output_dim = 5` does not fail — there is no validation and no error
path in the constructor.  It silently builds a layer, ignoring the
`output_dim` argument (the resulting `output_dim` is 3, not 5). -/
theorem C6_counterexample :
    initLayer 3 5 =
      { input_dim := 3, output_dim := 3, gamma := [1, 1, 1],
        beta := [0, 0, 0], cache := none } ∧
    (initLayer 3 5).output_dim ≠ 5 :=
  ⟨rfl, by decide⟩

/-- C6 amended: construction with any `input_dim`/`output_dim` pair
silently proceeds; the `output_dim` argument is ignored and the layer's
`output_dim` is set to `input_dim`. -/
theorem C6_amended_silent_construction (input_dim output_dim : ℕ) :
    initLayer input_dim output_dim =
      { input_dim := input_dim, output_dim := input_dim,
        gamma := List.replicate input_dim 1,
        beta := List.replicate input_dim 0, cache := none } ∧
    (initLayer input_dim output_dim).output_dim = input_dim :=
  ⟨rfl, rfl⟩

/-- C8 counterexample: on a freshly constructed layer the cache is
empty, and bprop fails with the Python ValueError raised by unpacking
`[std,diff,uhat] = []` while grads_wrt_params fails with the IndexError
raised by `self.cache[2]` — neither is the explicit "not initialized"
error the claim demands. -/
theorem C8_counterexample :
    (initLayer 3 3).bprop 3 [[1, 1, 1]] [[1, 1, 1]] [[1, 1, 1]] =
      .error .valueErr ∧
    (initLayer 3 3).grads_wrt_params 3 [[1, 1, 1]] [[1, 1, 1]] =
      .error .indexErr ∧
    PyError.valueErr ≠ PyError.notInitErr ∧
    PyError.indexErr ≠ PyError.notInitErr :=
  ⟨rfl, rfl, by decide, by decide⟩

/-- C8 amended: on any layer whose cache is empty (as after
construction, before any fprop), bprop fails by crashing on the missing
cached value (the unpacking ValueError) and grads_wrt_params by the
IndexError of `self.cache[2]`; no explicit "not initialized" error is
ever raised. -/
theorem C8_amended_crash_on_empty_cache (l : Layer) (D : ℕ)
    (inputs outputs gwo : List (List ℝ)) (h : l.cache = none) :
    l.bprop D inputs outputs gwo = .error .valueErr ∧
    l.grads_wrt_params D inputs gwo = .error .indexErr ∧
    l.bprop D inputs outputs gwo ≠ .error .notInitErr ∧
    l.grads_wrt_params D inputs gwo ≠ .error .notInitErr := by
  refine ⟨?_, ?_, ?_, ?_⟩ <;> simp [Layer.bprop, Layer.grads_wrt_params, h]

/-- Witness for C8 on a concrete fresh layer. -/
theorem C8_amended_witness :
    (initLayer 2 2).cache = none ∧
    (initLayer 2 2).bprop 2 [[1, 1]] [[1, 1]] [[1, 1]] = .error .valueErr ∧
    (initLayer 2 2).grads_wrt_params 2 [[1, 1]] [[1, 1]] = .error .indexErr :=
  ⟨rfl,
   (C8_amended_crash_on_empty_cache (initLayer 2 2) 2 [[1, 1]] [[1, 1]] [[1, 1]] rfl).1,
   (C8_amended_crash_on_empty_cache (initLayer 2 2) 2 [[1, 1]] [[1, 1]] [[1, 1]] rfl).2.1⟩

/-- C9: the accessor definition returns `[gamma, beta]`, the setter
definition overwrites gamma and beta from the first two entries of the
given list, and the round trip — applying the setter to the accessor's
value — leaves the layer unchanged.  (The source defines both methods
under the single name `params`; Python name resolution keeps only the
later one, the setter.) -/
theorem C9_params_roundtrip (l : Layer) :
    params_get l = [l.gamma, l.beta] ∧
    (∀ g b rest, params_set l (g :: b :: rest) =
      some { l with gamma := g, beta := b }) ∧
    params_set l (params_get l) = some l :=
  ⟨rfl, fun _ _ _ => rfl, rfl⟩

/-- C10: grads_wrt_params never reads its `inputs` argument — for the
same layer state (gamma, beta, cache) and the same upstream gradients,
any two inputs arrays produce identical results. -/
theorem C10_grads_wrt_params_ignores_inputs (l : Layer) (D : ℕ)
    (inputs1 inputs2 gwo : List (List ℝ)) :
    l.grads_wrt_params D inputs1 gwo = l.grads_wrt_params D inputs2 gwo :=
  rfl

/-- C7 counterexample: the setter performs no length validation, so
applying it with a length-2 gamma and a length-1 beta to a freshly
constructed `input_dim = 3` layer succeeds and leaves a layer violating
the parameter-length invariants. -/
theorem C7_counterexample :
    params_set (initLayer 3 3) [[1, 2], [0]] =
      some { input_dim := 3, output_dim := 3, gamma := [1, 2],
             beta := [0], cache := none } ∧
    ¬ Invariant { input_dim := 3, output_dim := 3, gamma := [1, 2],
                  beta := [0], cache := none } := by
  refine ⟨rfl, fun h => ?_⟩
  rcases h with ⟨-, h2, -⟩
  simp at h2

/-- C7 amended: `output_dim = input_dim` and the parameter lengths hold
after construction (with the spec-modelled gamma/beta initialization)
and are preserved by fprop (which only rewrites the cache) and by the
setter whenever the supplied vectors have length `input_dim`; the
setter itself checks nothing, so only length-respecting updates keep
the invariant. -/
theorem C7_amended_invariants (input_dim output_dim : ℕ) (l : Layer)
    (D : ℕ) (inputs : List (List ℝ)) (g b : List ℝ) (hl : Invariant l)
    (hg : g.length = l.input_dim) (hb : b.length = l.input_dim) :
    Invariant (initLayer input_dim output_dim) ∧
    Invariant (fprop l D inputs).2 ∧
    params_set l [g, b] = some { l with gamma := g, beta := b } ∧
    Invariant { l with gamma := g, beta := b } := by
  refine ⟨⟨rfl, by simp [initLayer], by simp [initLayer]⟩, hl, rfl, hl.1, hg, hb⟩

/-- Witness for C7 on a concrete layer and a concrete valid update. -/
theorem C7_amended_witness :
    Invariant (initLayer 2 7) ∧
    Invariant { initLayer 2 7 with gamma := [5, 6], beta := [7, 8] } :=
  ⟨⟨rfl, rfl, rfl⟩,
   (C7_amended_invariants 2 7 (initLayer 2 7) 0 [] [5, 6] [7, 8]
     ⟨rfl, rfl, rfl⟩ rfl rfl).2.2.2⟩

/-- An in-range `getD` is a member of the list. -/
lemma getD_mem {α : Type} (l : List α) (i : ℕ) (d : α) (h : i < l.length) :
    l.getD i d ∈ l := by
  rw [List.getD_eq_getElem _ _ h]
  exact List.getElem_mem ..

/-- Entry of a row-mapped matrix. -/
lemma entry_map_row (f : List ℝ → List ℝ) (m : List (List ℝ)) (i j : ℕ)
    (hi : i < m.length) :
    entry (m.map f) i j = (f (m.getD i [])).getD j 0 := by
  rw [entry, getD_map' _ _ i [] [] hi]

/-- Entry of a rowwise `zipWith` of two matrices. -/
lemma entry_zip_rows (f : List ℝ → List ℝ → List ℝ) (a b : List (List ℝ))
    (i j : ℕ) (ha : i < a.length) (hb : i < b.length) :
    entry (List.zipWith f a b) i j = (f (a.getD i []) (b.getD i [])).getD j 0 := by
  rw [entry, getD_zipWith _ _ _ i [] [] [] ha hb]

/-- C3: for a batch of shape (batch, input_dim) with batch size at least
one and well-sized parameter vectors, fprop returns a matrix of exactly
the input's shape whose every entry is
`gamma[j] * uhat[i][j] + beta[j]` — the elementwise affine transform of
the normalized activation, with gamma and beta broadcast over the
batch. -/
theorem C3_fprop_affine_output_shape (l : Layer) (inputs : List (List ℝ))
    (hg : l.gamma.length = l.input_dim) (hb : l.beta.length = l.input_dim)
    (hrows : ∀ r ∈ inputs, r.length = l.input_dim) (_hN : 1 ≤ inputs.length) :
    (fprop l l.input_dim inputs).1.length = inputs.length ∧
    (∀ r ∈ (fprop l l.input_dim inputs).1, r.length = l.input_dim) ∧
    (∀ i j, i < inputs.length → j < l.input_dim →
      entry (fprop l l.input_dim inputs).1 i j =
        l.gamma.getD j 0 * entry (uhat l.input_dim inputs) i j + l.beta.getD j 0) := by
  have hUlen : (uhat l.input_dim inputs).length = inputs.length := length_uhat _ _
  simp only [fprop, affine]
  refine ⟨by simp [hUlen], ?_, ?_⟩
  · intro r hr
    rcases List.mem_map.1 hr with ⟨u, hu, rfl⟩
    have hul : u.length = l.input_dim := uhat_row_length hrows u hu
    simp [List.length_zipWith, hg, hb, hul]
  · intro i j hi hj
    have hiU : i < (uhat l.input_dim inputs).length := by omega
    have humem : (uhat l.input_dim inputs).getD i [] ∈ uhat l.input_dim inputs :=
      getD_mem _ _ _ hiU
    have hul : ((uhat l.input_dim inputs).getD i []).length = l.input_dim :=
      uhat_row_length hrows _ humem
    have hul2 : (((uhat l.input_dim inputs)[i]?).getD []).length = l.input_dim := by
      simpa [List.getD] using hul
    rw [entry, getD_map' _ _ i [] [] hiU]
    rw [getD_zipWith _ _ _ _ 0 0 0
      (by simp [List.length_zipWith]; omega) (by omega)]
    rw [getD_zipWith _ _ _ _ 0 0 0 (by omega) (by omega)]
    rfl

/-- C5: given the cache written by the matching fprop call,
grads_wrt_params returns the list `[grad_gamma, grad_beta]` in that
order, where for each feature j `grad_beta[j]` is the sum of the
upstream gradients down the batch and `grad_gamma[j]` is the sum of the
upstream gradients times the cached uhat; both vectors have length
`input_dim` regardless of the batch size. -/
theorem C5_grads_wrt_params_sums (l : Layer) (inputs gwo : List (List ℝ))
    (hrows : ∀ r ∈ inputs, r.length = l.input_dim)
    (hgr : ∀ r ∈ gwo, r.length = l.input_dim)
    (hlen : gwo.length = inputs.length) :
    ∃ gg gb,
      ((fprop l l.input_dim inputs).2).grads_wrt_params l.input_dim inputs gwo =
        .ok [gg, gb] ∧
      gg.length = l.input_dim ∧ gb.length = l.input_dim ∧
      (∀ j, j < l.input_dim →
        gb.getD j 0 = ∑ i ∈ Finset.range gwo.length, entry gwo i j ∧
        gg.getD j 0 = ∑ i ∈ Finset.range gwo.length,
          entry gwo i j * entry (uhat l.input_dim inputs) i j) := by
  have hUlen : (uhat l.input_dim inputs).length = inputs.length := length_uhat _ _
  have hProws : ∀ r ∈ List.zipWith (fun r1 r2 => List.zipWith (· * ·) r1 r2)
      gwo (uhat l.input_dim inputs), r.length = l.input_dim := by
    intro r hr
    rcases mem_zipWith hr with ⟨r1, h1, r2, h2, rfl⟩
    simp [List.length_zipWith, hgr r1 h1, uhat_row_length hrows r2 h2]
  refine ⟨_, _, rfl, length_colSum hProws, length_colSum hgr, ?_⟩
  intro j hj
  refine ⟨getD_colSum hgr hj, ?_⟩
  rw [getD_colSum hProws hj]
  have hPlen : (List.zipWith (fun r1 r2 => List.zipWith (· * ·) r1 r2)
      gwo (uhat l.input_dim inputs)).length = gwo.length := by
    simp [List.length_zipWith]
    omega
  rw [hPlen]
  refine Finset.sum_congr rfl fun i hi => ?_
  rw [Finset.mem_range] at hi
  have hiU : i < (uhat l.input_dim inputs).length := by omega
  rw [entry_zip_rows _ _ _ i j hi hiU]
  have hg1 : (gwo.getD i []).length = l.input_dim := hgr _ (getD_mem _ _ _ hi)
  have hg2 : ((uhat l.input_dim inputs).getD i []).length = l.input_dim :=
    uhat_row_length hrows _ (getD_mem _ _ _ hiU)
  rw [getD_zipWith _ _ _ j 0 0 0 (by omega) (by omega)]
  rfl

/-- Shape of `duhatM`. -/
lemma length_duhatM (gamma : List ℝ) (gwo : List (List ℝ)) :
    (duhatM gamma gwo).length = gwo.length := by
  simp [duhatM]

/-- Rows of `duhatM` have the feature count. -/
lemma rows_duhatM {D : ℕ} {gamma : List ℝ} {gwo : List (List ℝ)}
    (hg : gamma.length = D) (hgr : ∀ r ∈ gwo, r.length = D) :
    ∀ r ∈ duhatM gamma gwo, r.length = D := by
  intro r hr
  rcases List.mem_map.1 hr with ⟨r0, h0, rfl⟩
  simp [duhatM, List.length_zipWith, hgr r0 h0, hg]

/-- Entry of `duhatM`: the upstream gradient scaled by gamma. -/
lemma entry_duhatM {D : ℕ} {gamma : List ℝ} {gwo : List (List ℝ)} {i j : ℕ}
    (hg : gamma.length = D) (hgr : ∀ r ∈ gwo, r.length = D)
    (hi : i < gwo.length) (hj : j < D) :
    entry (duhatM gamma gwo) i j = entry gwo i j * gamma.getD j 0 := by
  have h1 : (gwo.getD i []).length = D := hgr _ (getD_mem _ _ _ hi)
  rw [duhatM, entry_map_row _ _ i j hi]
  rw [getD_zipWith _ _ _ j 0 0 0 (by omega) (by omega)]
  rfl

/-- Rows of an elementwise product of two well-shaped arrays. -/
lemma rows_rowMul {D : ℕ} {a b : List (List ℝ)}
    (hra : ∀ r ∈ a, r.length = D) (hrb : ∀ r ∈ b, r.length = D) :
    ∀ r ∈ rowMul a b, r.length = D := by
  intro r hr
  rcases mem_zipWith hr with ⟨r1, h1, r2, h2, rfl⟩
  simp [List.length_zipWith, hra r1 h1, hrb r2 h2]

/-- Entry of an elementwise product of two well-shaped arrays. -/
lemma entry_rowMul {D : ℕ} {a b : List (List ℝ)} {i j : ℕ}
    (hra : ∀ r ∈ a, r.length = D) (hrb : ∀ r ∈ b, r.length = D)
    (hia : i < a.length) (hib : i < b.length) (hj : j < D) :
    entry (rowMul a b) i j = entry a i j * entry b i j := by
  have h1 : (a.getD i []).length = D := hra _ (getD_mem _ _ _ hia)
  have h2 : (b.getD i []).length = D := hrb _ (getD_mem _ _ _ hib)
  rw [rowMul, entry_zip_rows _ _ _ i j hia hib]
  rw [getD_zipWith _ _ _ j 0 0 0 (by omega) (by omega)]
  rfl

/-- Shape of `dvarV`. -/
lemma length_dvarV {D : ℕ} {duhat U : List (List ℝ)} {S : List ℝ}
    (hdu : ∀ r ∈ duhat, r.length = D) (hU : ∀ r ∈ U, r.length = D)
    (hS : S.length = D) : (dvarV D duhat U S).length = D := by
  simp only [dvarV, List.length_zipWith, length_colSum (rows_rowMul hdu hU), hS]
  omega

/-- Entry of `dvarV`: the per-feature gradient with respect to the
variance. -/
lemma getD_dvarV {D : ℕ} {duhat U : List (List ℝ)} {S : List ℝ} {j : ℕ}
    (hdu : ∀ r ∈ duhat, r.length = D) (hU : ∀ r ∈ U, r.length = D)
    (hUd : U.length = duhat.length) (hS : S.length = D) (hj : j < D) :
    (dvarV D duhat U S).getD j 0 =
      -0.5 * ((∑ i ∈ Finset.range duhat.length, entry duhat i j * entry U i j) /
        S.getD j 0 ^ 2) := by
  have hProws : ∀ r ∈ rowMul duhat U, r.length = D := rows_rowMul hdu hU
  have hPlen : (rowMul duhat U).length = duhat.length := by
    simp only [rowMul, List.length_zipWith]
    omega
  rw [dvarV, getD_zipWith _ _ _ j 0 0 0 (by rw [length_colSum hProws]; omega) (by omega)]
  rw [getD_colSum hProws hj, hPlen]
  have hsum : ∑ i ∈ Finset.range duhat.length, entry (rowMul duhat U) i j =
      ∑ i ∈ Finset.range duhat.length, entry duhat i j * entry U i j := by
    refine Finset.sum_congr rfl fun i hi => ?_
    rw [Finset.mem_range] at hi
    exact entry_rowMul hdu hU hi (by omega) hj
  rw [hsum]

/-- Shape of `dmuV`. -/
lemma length_dmuV {D : ℕ} {duhat : List (List ℝ)} {S : List ℝ}
    (hdu : ∀ r ∈ duhat, r.length = D) (hS : S.length = D) :
    (dmuV D duhat S).length = D := by
  simp only [dmuV, List.length_zipWith, length_colSum hdu, hS]
  omega

/-- Entry of `dmuV`: the per-feature gradient with respect to the
mean. -/
lemma getD_dmuV {D : ℕ} {duhat : List (List ℝ)} {S : List ℝ} {j : ℕ}
    (hdu : ∀ r ∈ duhat, r.length = D) (hS : S.length = D) (hj : j < D) :
    (dmuV D duhat S).getD j 0 =
      -1 * ((∑ i ∈ Finset.range duhat.length, entry duhat i j) / S.getD j 0) := by
  rw [dmuV, getD_zipWith _ _ _ j 0 0 0 (by rw [length_colSum hdu]; omega) (by omega)]
  rw [getD_colSum hdu hj]

/-- Shape and entrywise value of the body of bprop, for any cache of the
right shape: the result has the batch's shape and its (i, j) entry is
`duhat/std + 2*dvar*diff*(1/N) + dmu*(1/N)` with
`duhat[i][j] = gwo[i][j]*gamma[j]`,
`dvar[j] = -0.5 * sum_i(duhat*uhat) / std[j]^2` and
`dmu[j] = -sum_i(duhat) / std[j]`, exactly as the source computes them. -/
lemma bpropCore_spec (gamma : List ℝ) (c : Cache) (inputs gwo : List (List ℝ))
    (D : ℕ) (hg : gamma.length = D) (hs : c.stdv.length = D)
    (hUlen : c.uhatm.length = inputs.length)
    (hUrows : ∀ r ∈ c.uhatm, r.length = D)
    (hDmlen : c.diffm.length = inputs.length)
    (hDmrows : ∀ r ∈ c.diffm, r.length = D)
    (hgr : ∀ r ∈ gwo, r.length = D)
    (hlen : gwo.length = inputs.length) :
    (bpropCore gamma c inputs gwo D).length = inputs.length ∧
    (∀ r ∈ bpropCore gamma c inputs gwo D, r.length = D) ∧
    (∀ i j, i < inputs.length → j < D →
      entry (bpropCore gamma c inputs gwo D) i j =
        entry gwo i j * gamma.getD j 0 / c.stdv.getD j 0 +
        2 * (-0.5 * ((∑ i2 ∈ Finset.range inputs.length,
            entry gwo i2 j * gamma.getD j 0 * entry c.uhatm i2 j) /
          c.stdv.getD j 0 ^ 2)) * entry c.diffm i j / (inputs.length : ℝ) +
        -((∑ i2 ∈ Finset.range inputs.length, entry gwo i2 j * gamma.getD j 0) /
          c.stdv.getD j 0) / (inputs.length : ℝ)) := by
  obtain ⟨S, Dm, U⟩ := c
  dsimp only at hs hUlen hUrows hDmlen hDmrows ⊢
  have hdu_rows : ∀ r ∈ duhatM gamma gwo, r.length = D := rows_duhatM hg hgr
  have hdu_len : (duhatM gamma gwo).length = gwo.length := length_duhatM gamma gwo
  have hdu_len2 : (duhatM gamma gwo).length = inputs.length := by omega
  have hdv_len : (dvarV D (duhatM gamma gwo) U S).length = D :=
    length_dvarV hdu_rows hUrows hs
  have hdm_len : (dmuV D (duhatM gamma gwo) S).length = D :=
    length_dmuV hdu_rows hs
  simp only [bpropCore]
  set t1 := (duhatM gamma gwo).map (fun r => List.zipWith (· / ·) r S) with ht1
  set t2 := Dm.map (fun r =>
    List.zipWith (fun dv d => 2 * dv * d * (1 / (inputs.length : ℝ)))
      (dvarV D (duhatM gamma gwo) U S) r) with ht2
  set t3 := (dmuV D (duhatM gamma gwo) S).map
    (fun x => x * (1 / (inputs.length : ℝ))) with ht3
  set inn := List.zipWith (fun r1 r2 => List.zipWith (· + ·) r1 r2) t1 t2 with hinn
  have ht1_len : t1.length = gwo.length := by simp [ht1, hdu_len]
  have ht1_rows : ∀ r ∈ t1, r.length = D := by
    intro r hr
    rcases List.mem_map.1 hr with ⟨r0, h0, rfl⟩
    simp [List.length_zipWith, hdu_rows r0 h0, hs]
  have ht2_len : t2.length = inputs.length := by simp [ht2, hDmlen]
  have ht2_rows : ∀ r ∈ t2, r.length = D := by
    intro r hr
    rcases List.mem_map.1 hr with ⟨r0, h0, rfl⟩
    simp [List.length_zipWith, hDmrows r0 h0, hdv_len]
  have ht3_len : t3.length = D := by simp [ht3, hdm_len]
  have hinn_len : inn.length = inputs.length := by
    simp only [hinn, List.length_zipWith]
    omega
  have hinn_rows : ∀ r ∈ inn, r.length = D := by
    intro r hr
    rcases mem_zipWith hr with ⟨r1, h1, r2, h2, rfl⟩
    simp [List.length_zipWith, ht1_rows r1 h1, ht2_rows r2 h2]
  refine ⟨by simp [hinn_len], ?_, ?_⟩
  · intro r hr
    rcases List.mem_map.1 hr with ⟨r0, h0, rfl⟩
    simp [List.length_zipWith, hinn_rows r0 h0, ht3_len]
  · intro i j hi hj
    have hiinn : i < inn.length := by omega
    have hrow0 : (inn.getD i []).length = D := hinn_rows _ (getD_mem _ _ _ hiinn)
    rw [entry_map_row _ _ i j hiinn]
    rw [getD_zipWith _ _ _ j 0 0 0 (by omega) (by omega)]
    have hit1 : i < t1.length := by omega
    have hit2 : i < t2.length := by omega
    have hrow1 : inn.getD i [] = List.zipWith (· + ·) (t1.getD i []) (t2.getD i []) := by
      rw [hinn, getD_zipWith _ _ _ i [] [] [] hit1 hit2]
    have ht1r : (t1.getD i []).length = D := ht1_rows _ (getD_mem _ _ _ hit1)
    have ht2r : (t2.getD i []).length = D := ht2_rows _ (getD_mem _ _ _ hit2)
    rw [hrow1, getD_zipWith _ _ _ j 0 0 0 (by omega) (by omega)]
    have higwo : i < gwo.length := by omega
    have hiduh : i < (duhatM gamma gwo).length := by omega
    have hduhr : ((duhatM gamma gwo).getD i []).length = D :=
      hdu_rows _ (getD_mem _ _ _ hiduh)
    have hT1 : (t1.getD i []).getD j 0 =
        entry gwo i j * gamma.getD j 0 / S.getD j 0 := by
      rw [ht1, getD_map' _ _ i [] [] hiduh]
      rw [getD_zipWith _ _ _ j 0 0 0 (by omega) (by omega)]
      have he : ((duhatM gamma gwo).getD i []).getD j 0 =
          entry (duhatM gamma gwo) i j := rfl
      rw [he, entry_duhatM hg hgr higwo hj]
    have hiDm : i < Dm.length := by omega
    have hDmr : (Dm.getD i []).length = D := hDmrows _ (getD_mem _ _ _ hiDm)
    have hT2 : (t2.getD i []).getD j 0 =
        2 * (-0.5 * ((∑ i2 ∈ Finset.range inputs.length,
            entry gwo i2 j * gamma.getD j 0 * entry U i2 j) / S.getD j 0 ^ 2)) *
          entry Dm i j * (1 / (inputs.length : ℝ)) := by
      rw [ht2, getD_map' _ _ i [] [] hiDm]
      rw [getD_zipWith _ _ _ j 0 0 0 (by omega) (by omega)]
      rw [getD_dvarV hdu_rows hUrows (by omega) hs hj, hdu_len2]
      have hsum : ∑ i2 ∈ Finset.range inputs.length,
          entry (duhatM gamma gwo) i2 j * entry U i2 j =
          ∑ i2 ∈ Finset.range inputs.length,
            entry gwo i2 j * gamma.getD j 0 * entry U i2 j := by
        refine Finset.sum_congr rfl fun i2 hi2 => ?_
        rw [Finset.mem_range] at hi2
        rw [entry_duhatM hg hgr (by omega) hj]
      rw [hsum]
      rfl
    have hT3 : t3.getD j 0 =
        -1 * ((∑ i2 ∈ Finset.range inputs.length,
            entry gwo i2 j * gamma.getD j 0) / S.getD j 0) *
          (1 / (inputs.length : ℝ)) := by
      rw [ht3, getD_map' _ _ j 0 0 (by omega)]
      rw [getD_dmuV hdu_rows hs hj, hdu_len2]
      have hsum : ∑ i2 ∈ Finset.range inputs.length,
          entry (duhatM gamma gwo) i2 j =
          ∑ i2 ∈ Finset.range inputs.length, entry gwo i2 j * gamma.getD j 0 := by
        refine Finset.sum_congr rfl fun i2 hi2 => ?_
        rw [Finset.mem_range] at hi2
        exact entry_duhatM hg hgr (by omega) hj
      rw [hsum]
    rw [hT1, hT2, hT3]
    ring

/-- C4: given the cache (std, diff, uhat) written by the matching fprop
call, bprop succeeds and returns a matrix of the batch's shape whose
(i, j) entry equals `duhat/std + 2*dvar*diff/N + dmu/N`, where
`duhat[i][j] = grads_wrt_outputs[i][j] * gamma[j]`,
`dvar[j] = -0.5 * sum_over_batch(duhat * uhat) / std[j]^2`,
`dmu[j] = -sum_over_batch(duhat) / std[j]`, and `N` is the batch
size. -/
theorem C4_bprop_formula (l : Layer) (inputs outputs gwo : List (List ℝ))
    (hg : l.gamma.length = l.input_dim)
    (hrows : ∀ r ∈ inputs, r.length = l.input_dim)
    (hgr : ∀ r ∈ gwo, r.length = l.input_dim)
    (hlen : gwo.length = inputs.length) :
    ∃ G, ((fprop l l.input_dim inputs).2).bprop l.input_dim inputs outputs gwo =
        .ok G ∧
      (G.length = inputs.length ∧ (∀ r ∈ G, r.length = l.input_dim) ∧
      (∀ i j, i < inputs.length → j < l.input_dim →
        entry G i j =
          entry gwo i j * l.gamma.getD j 0 / (std l.input_dim inputs).getD j 0 +
          2 * (-0.5 * ((∑ i2 ∈ Finset.range inputs.length,
              entry gwo i2 j * l.gamma.getD j 0 *
                entry (uhat l.input_dim inputs) i2 j) /
            (std l.input_dim inputs).getD j 0 ^ 2)) *
            entry (diff l.input_dim inputs) i j / (inputs.length : ℝ) +
          -((∑ i2 ∈ Finset.range inputs.length,
              entry gwo i2 j * l.gamma.getD j 0) /
            (std l.input_dim inputs).getD j 0) / (inputs.length : ℝ))) := by
  refine ⟨_, rfl, ?_⟩
  exact bpropCore_spec l.gamma
    ⟨std l.input_dim inputs, diff l.input_dim inputs, uhat l.input_dim inputs⟩
    inputs gwo l.input_dim hg (length_std hrows) (length_uhat _ _)
    (uhat_row_length hrows) (length_diff _ _) (diff_row_length hrows) hgr hlen

/-- Rows of the concrete batch `[[2], [4]]` all have one feature. -/
lemma rows_pair_len1 : ∀ r ∈ ([[2], [4]] : List (List ℝ)),
    r.length = (initLayer 1 1).input_dim := by
  intro r hr
  rcases List.mem_cons.1 hr with rfl | hr
  · rfl
  · rcases List.mem_cons.1 hr with rfl | hr
    · rfl
    · simp at hr

/-- Rows of the concrete gradient batch `[[1], [1]]` all have one
feature. -/
lemma rows_ones_len1 : ∀ r ∈ ([[1], [1]] : List (List ℝ)),
    r.length = (initLayer 1 1).input_dim := by
  intro r hr
  rcases List.mem_cons.1 hr with rfl | hr
  · rfl
  · rcases List.mem_cons.1 hr with rfl | hr
    · rfl
    · simp at hr

/-- Witness for C3 on a concrete layer and batch. -/
theorem C3_witness :
    ((initLayer 1 1).gamma.length = (initLayer 1 1).input_dim) ∧
    ((initLayer 1 1).beta.length = (initLayer 1 1).input_dim) ∧
    (∀ r ∈ ([[2], [4]] : List (List ℝ)), r.length = (initLayer 1 1).input_dim) ∧
    (1 ≤ ([[2], [4]] : List (List ℝ)).length) ∧
    ((fprop (initLayer 1 1) (initLayer 1 1).input_dim [[2], [4]]).1.length = 2 ∧
     (∀ r ∈ (fprop (initLayer 1 1) (initLayer 1 1).input_dim [[2], [4]]).1,
        r.length = (initLayer 1 1).input_dim) ∧
     (∀ i j, i < 2 → j < (initLayer 1 1).input_dim →
        entry (fprop (initLayer 1 1) (initLayer 1 1).input_dim [[2], [4]]).1 i j =
          (initLayer 1 1).gamma.getD j 0 *
            entry (uhat (initLayer 1 1).input_dim [[2], [4]]) i j +
          (initLayer 1 1).beta.getD j 0)) :=
  ⟨rfl, rfl, rows_pair_len1, by decide,
   C3_fprop_affine_output_shape (initLayer 1 1) [[2], [4]] rfl rfl
     rows_pair_len1 (by decide)⟩

/-- Witness for C5 on a concrete layer, batch and upstream gradient. -/
theorem C5_witness :
    (∀ r ∈ ([[2], [4]] : List (List ℝ)), r.length = (initLayer 1 1).input_dim) ∧
    (∀ r ∈ ([[1], [1]] : List (List ℝ)), r.length = (initLayer 1 1).input_dim) ∧
    (([[1], [1]] : List (List ℝ)).length = ([[2], [4]] : List (List ℝ)).length) ∧
    (∃ gg gb,
      ((fprop (initLayer 1 1) (initLayer 1 1).input_dim [[2], [4]]).2).grads_wrt_params
          (initLayer 1 1).input_dim [[2], [4]] [[1], [1]] = .ok [gg, gb] ∧
      gg.length = (initLayer 1 1).input_dim ∧ gb.length = (initLayer 1 1).input_dim ∧
      (∀ j, j < (initLayer 1 1).input_dim →
        gb.getD j 0 = ∑ i ∈ Finset.range 2, entry [[1], [1]] i j ∧
        gg.getD j 0 = ∑ i ∈ Finset.range 2,
          entry [[1], [1]] i j *
            entry (uhat (initLayer 1 1).input_dim [[2], [4]]) i j)) :=
  ⟨rows_pair_len1, rows_ones_len1, rfl,
   C5_grads_wrt_params_sums (initLayer 1 1) [[2], [4]] [[1], [1]]
     rows_pair_len1 rows_ones_len1 rfl⟩

/-- Witness for C4 on a concrete layer, batch and upstream gradient. -/
theorem C4_witness :
    ((initLayer 1 1).gamma.length = (initLayer 1 1).input_dim) ∧
    (∀ r ∈ ([[2], [4]] : List (List ℝ)), r.length = (initLayer 1 1).input_dim) ∧
    (∀ r ∈ ([[1], [1]] : List (List ℝ)), r.length = (initLayer 1 1).input_dim) ∧
    (([[1], [1]] : List (List ℝ)).length = ([[2], [4]] : List (List ℝ)).length) ∧
    (∃ G, ((fprop (initLayer 1 1) (initLayer 1 1).input_dim [[2], [4]]).2).bprop
        (initLayer 1 1).input_dim [[2], [4]] [[0], [0]] [[1], [1]] = .ok G ∧
      (G.length = 2 ∧ (∀ r ∈ G, r.length = (initLayer 1 1).input_dim) ∧
      (∀ i j, i < 2 → j < (initLayer 1 1).input_dim →
        entry G i j =
          entry [[1], [1]] i j * (initLayer 1 1).gamma.getD j 0 /
            (std (initLayer 1 1).input_dim [[2], [4]]).getD j 0 +
          2 * (-0.5 * ((∑ i2 ∈ Finset.range 2,
              entry [[1], [1]] i2 j * (initLayer 1 1).gamma.getD j 0 *
                entry (uhat (initLayer 1 1).input_dim [[2], [4]]) i2 j) /
            (std (initLayer 1 1).input_dim [[2], [4]]).getD j 0 ^ 2)) *
            entry (diff (initLayer 1 1).input_dim [[2], [4]]) i j / ((2 : ℕ) : ℝ) +
          -((∑ i2 ∈ Finset.range 2,
              entry [[1], [1]] i2 j * (initLayer 1 1).gamma.getD j 0) /
            (std (initLayer 1 1).input_dim [[2], [4]]).getD j 0) / ((2 : ℕ) : ℝ)))) :=
  ⟨rfl, rows_pair_len1, rows_ones_len1, rfl,
   C4_bprop_formula (initLayer 1 1) [[2], [4]] [[0], [0]] [[1], [1]] rfl
     rows_pair_len1 rows_ones_len1 rfl⟩

end BatchNorm
